import Mathlib

/-!
Shallow embedding of the hbf-agent core: the firewall rule reconciler
(internal/firewall/manager.go), the health-check state machine
(internal/health/checker.go), the service mesh registry manager and the
load-balancing strategies (servicemesh package).  Go maps are embedded as
association lists with Go map semantics (assignment overwrites in place,
otherwise appends; delete removes the key); the nanosecond clock used for
ID generation is passed in explicitly; each backend call carries an
explicit success flag so that failure paths can be analysed.
-/

namespace HbfAgent

/-- Association-list lookup, mirroring Go `m[k]` for pointer-valued maps
(`none` when the key is absent). -/
def lookupAssoc {α : Type} (k : String) (l : List (String × α)) : Option α :=
  (l.find? (fun p => p.1 = k)).map Prod.snd

/-- Association-list insert, mirroring Go `m[k] = v`: overwrite in place if
the key is present, append otherwise. -/
def insertAssoc {α : Type} (k : String) (v : α) (l : List (String × α)) :
    List (String × α) :=
  if l.any (fun p => p.1 = k) then
    l.map (fun p => if p.1 = k then (k, v) else p)
  else
    l ++ [(k, v)]

/-- Association-list removal, mirroring Go `delete(m, k)`. -/
def eraseAssoc {α : Type} (k : String) (l : List (String × α)) :
    List (String × α) :=
  l.filter (fun p => p.1 ≠ k)

/-! ## Firewall rules (internal/firewall/manager.go) -/

/-- `firewall.Rule`: one packet-filter entry.  `createdAt` is the
nanosecond timestamp set by `AddRule`. -/
structure Rule where
  id : String
  chain : String
  protocol : String
  source : String
  dest : String
  sport : String
  dport : String
  action : String
  comment : String
  createdAt : Nat
deriving DecidableEq, Repr

/-- `generateRuleID`: `fmt.Sprintf("rule-%d", time.Now().UnixNano())`. -/
def generateRuleID (now : Nat) : String :=
  "rule-" ++ toString now

/-- `rulesEqual` from manager.go: structural equality on
chain/protocol/source/dest/sport/dport/action (ID, comment and creation
time take no part). -/
def rulesEqual (r1 r2 : Rule) : Bool :=
  r1.chain = r2.chain &&
  r1.protocol = r2.protocol &&
  r1.source = r2.source &&
  r1.dest = r2.dest &&
  r1.sport = r2.sport &&
  r1.dport = r2.dport &&
  r1.action = r2.action

/-- State of the firewall `Manager`: the `running` flag and the desired
rule store `rules map[string]*Rule`. -/
structure FwState where
  running : Bool
  rules : List (String × Rule)
deriving DecidableEq, Repr

/-- The effective rule stored by `Manager.AddRule`: the ID is generated
from the clock when absent, and `CreatedAt` is stamped. -/
def effRule (r : Rule) (now : Nat) : Rule :=
  let eid := if r.id = "" then generateRuleID now else r.id
  { r with id := eid, createdAt := now }

/-- `Manager.AddRule`: assign ID if empty, stamp `CreatedAt`, call the
backend (`ok` is the backend outcome), and only on success insert into the
store.  Returns the error message (if any) and the resulting state. -/
def addRule (st : FwState) (r : Rule) (now : Nat) (ok : Bool) :
    Option String × FwState :=
  let r' := effRule r now
  if ok then
    (none, { st with rules := insertAssoc r'.id r' st.rules })
  else
    (some "failed to add rule", st)

/-- `Manager.DeleteRule`: not-found error when the ID is absent; otherwise
call the backend (`ok`) and only on success remove from the store. -/
def deleteRule (st : FwState) (ruleID : String) (ok : Bool) :
    Option String × FwState :=
  match lookupAssoc ruleID st.rules with
  | none => (some ("rule not found: " ++ ruleID), st)
  | some _ =>
    if ok then
      (none, { st with rules := eraseAssoc ruleID st.rules })
    else
      (some "failed to delete rule", st)

/-- `Manager.ListRules`: the stored rules. -/
def listRules (st : FwState) : List Rule :=
  st.rules.map Prod.snd

/-- One mutation of the rule store: an `AddRule` call (with the clock value
at the call and the backend outcome) or a `DeleteRule` call (with the
backend outcome of the delete, used only when the rule is found). -/
inductive FwOp where
  | add (r : Rule) (now : Nat) (ok : Bool)
  | del (ruleID : String) (ok : Bool)
deriving DecidableEq, Repr

/-- Run one operation against the manager state (the error result is
dropped: the caller goes on either way). -/
def fwStep (st : FwState) : FwOp → FwState
  | .add r now ok => (addRule st r now ok).2
  | .del ruleID ok => (deleteRule st ruleID ok).2

/-- Run a sequence of AddRule/DeleteRule operations. -/
def fwExec (st : FwState) : List FwOp → FwState
  | [] => st
  | op :: ops => fwExec (fwStep st op) ops

/-- The initial manager state produced by `NewManager`: not running, empty
rule store. -/
def fwInit : FwState := { running := false, rules := [] }

/-- Whether every backend call of an operation succeeds. -/
def fwOpOk : FwOp → Bool
  | .add _ _ ok => ok
  | .del _ ok => ok

/-- The effective ID that an `AddRule` call stores under. -/
def fwOpAddIds : List FwOp → List String
  | [] => []
  | .add r now _ :: ops => (effRule r now).id :: fwOpAddIds ops
  | .del _ _ :: ops => fwOpAddIds ops

/-- The rules "added and not subsequently deleted", read directly off the
operation trace as the spec describes it: an add appends the effective
rule, a (successful) delete removes the rules bearing that ID. -/
def specRules (acc : List Rule) : List FwOp → List Rule
  | [] => acc
  | .add r now _ :: ops => specRules (acc ++ [effRule r now]) ops
  | .del ruleID _ :: ops => specRules (acc.filter (fun r => r.id ≠ ruleID)) ops

/-! ## Periodic sync (Manager.sync) -/

/-- A call issued to the firewall backend. -/
inductive BackendCall where
  | addCall (r : Rule)
  | delCall (r : Rule)
deriving DecidableEq, Repr

/-- `Manager.sync`: list the backend rules, then for every rule of the
desired store that no backend rule matches under `rulesEqual`, re-issue a
backend `AddRule` call.  The value is the trace of backend mutation calls
the sync pass issues (the listing call aside); the store is not changed. -/
def syncCalls (st : FwState) (backendRules : List Rule) : List BackendCall :=
  (listRules st).foldr
    (fun r acc =>
      if backendRules.any (fun br => rulesEqual r br) then acc
      else BackendCall.addCall r :: acc)
    []

/-! ## Health checker (internal/health/checker.go) -/

/-- `health.CheckStatus`. -/
inductive CheckStatus where
  | passing
  | warning
  | critical
deriving DecidableEq, Repr

/-- `health.Check`: per-service probe state.  Durations are nanosecond
counts; `failures` is the consecutive-failure counter. -/
structure Check where
  id : String
  ctype : String
  target : String
  interval : Nat
  timeout : Nat
  status : CheckStatus
  lastCheck : Nat
  failures : Nat
deriving DecidableEq, Repr

/-- `generateCheckID`: `fmt.Sprintf("check-%d", time.Now().UnixNano())`. -/
def generateCheckID (now : Nat) : String :=
  "check-" ++ toString now

/-- 10 seconds in nanoseconds, the default probe interval. -/
def tenSeconds : Nat := 10000000000

/-- 5 seconds in nanoseconds, the default probe timeout. -/
def fiveSeconds : Nat := 5000000000

/-- `Checker.AddCheck` on one check record: assign ID if empty, default
interval and timeout, set status to Passing and stamp `LastCheck`.  The Go
code leaves the `Failures` field as the caller constructed it (zero for a
zero-valued struct literal). -/
def addCheck (c : Check) (now : Nat) : Check :=
  { c with
    id := if c.id = "" then generateCheckID now else c.id,
    interval := if c.interval = 0 then tenSeconds else c.interval,
    timeout := if c.timeout = 0 then fiveSeconds else c.timeout,
    status := .passing,
    lastCheck := now }

/-- The check types `Checker.performCheck` knows how to probe. -/
def knownCheckTypes : List String := ["http", "tcp", "grpc"]

/-- `Checker.performCheck`: stamp `LastCheck`, dispatch the probe
(`failed` is the probe outcome), then on failure increment the
consecutive-failure counter and go Critical when it reaches 3, Warning
otherwise; on success reset the counter and go Passing.  An unknown check
type returns after the timestamp update without probing. -/
def performCheck (c : Check) (failed : Bool) (now : Nat) : Check :=
  let c := { c with lastCheck := now }
  if knownCheckTypes.contains c.ctype then
    if failed then
      let f := c.failures + 1
      { c with failures := f,
               status := if 3 ≤ f then .critical else .warning }
    else
      { c with failures := 0, status := .passing }
  else
    c

/-- State of the health `Checker`: the `running` flag and the check store. -/
structure CheckerState where
  running : Bool
  checks : List (String × Check)
deriving DecidableEq, Repr

/-! ## Service mesh (servicemesh package) -/

/-- `servicemesh.ServiceStatus`. -/
inductive ServiceStatus where
  | healthy
  | unhealthy
  | unknown
deriving DecidableEq, Repr

/-- `servicemesh.HealthCheck`: the optional health-check specification
attached to a service. -/
structure HealthSpec where
  ctype : String
  endpoint : String
  interval : Nat
  timeout : Nat
deriving DecidableEq, Repr

/-- `servicemesh.Service`. -/
structure Service where
  id : String
  name : String
  address : String
  port : Nat
  tags : List String
  meta : List (String × String)
  healthCheck : Option HealthSpec
  status : ServiceStatus
  registeredAt : Nat
  lastSeen : Nat
deriving DecidableEq, Repr

/-- `generateServiceID`: `fmt.Sprintf("%s-%d", name, time.Now().UnixNano())`. -/
def generateServiceID (name : String) (now : Nat) : String :=
  name ++ "-" ++ toString now

/-- State of the service mesh `Manager`: the `running` flag and the
service store. -/
structure SmState where
  running : Bool
  services : List (String × Service)
deriving DecidableEq, Repr

/-- The service record that `Manager.RegisterService` stores: ID assigned
from the clock when absent, both timestamps stamped, and status set to
Unknown unconditionally. -/
def effService (s : Service) (now : Nat) : Service :=
  let s := if s.id = "" then { s with id := generateServiceID s.name now } else s
  { s with registeredAt := now, lastSeen := now, status := .unknown }

/-- `Manager.RegisterService`: normalise the record, call the discovery
backend (`ok`), and only on success insert into the store. -/
def registerService (st : SmState) (s : Service) (now : Nat) (ok : Bool) :
    Option String × SmState :=
  let s' := effService s now
  if ok then
    (none, { st with services := insertAssoc s'.id s' st.services })
  else
    (some "failed to register service", st)

/-- `Manager.SelectService` after a successful `DiscoverService` call:
empty discovery is a not-found error; otherwise filter to Healthy and
either fail with the no-healthy-instances error or delegate the healthy
subset to the configured load balancer `lb`. -/
def selectService (services : List Service)
    (lb : List Service → Except String Service) (name : String) :
    Except String Service :=
  if services.length = 0 then
    .error ("no instances found for service: " ++ name)
  else
    let healthyServices := services.filter (fun s => s.status = .healthy)
    if healthyServices.length = 0 then
      .error ("no healthy instances found for service: " ++ name)
    else
      lb healthyServices

/-! ## Load balancers (servicemesh load balancer implementations) -/

/-- `2^64`, the modulus of the round-robin uint64 counter. -/
def uint64Mod : Nat := 2 ^ 64

/-- `RoundRobinLoadBalancer.Select`: error on an empty list; otherwise
increment the shared uint64 counter (`atomic.AddUint64` returns the new
value, wrapping at `2^64`) and pick the element at the new counter modulo
the list length.  Returns the selection and the new counter. -/
def rrSelect (services : List Service) (counter : Nat) :
    Except String Service × Nat :=
  if h : services.length = 0 then
    (.error "no services available", counter)
  else
    let c := (counter + 1) % uint64Mod
    (.ok (services.get ⟨c % services.length, Nat.mod_lt _ (Nat.pos_of_ne_zero h)⟩), c)

/-- `n` successive round-robin Select calls over a fixed list, collecting
the selected instances in call order. -/
def rrRun (services : List Service) (counter : Nat) : Nat → List Service × Nat
  | 0 => ([], counter)
  | n + 1 =>
    match rrSelect services counter with
    | (.ok s, c) =>
      let (rest, c') := rrRun services c n
      (s :: rest, c')
    | (.error _, c) => ([], c)

/-- The outstanding-connection map of `LeastConnLoadBalancer`
(`connections map[string]int64`). -/
abbrev ConnMap := List (String × Int)

/-- A Go `int64` map read: 0 when the key is absent. -/
def lookupConn (conns : ConnMap) (id : String) : Int :=
  (lookupAssoc id conns).getD 0

/-- The scan loop of `LeastConnLoadBalancer.Select`: walk the candidate
list keeping the running minimum and the service that set it, with the Go
sentinel `minConn == -1` marking "nothing selected yet". -/
def lcScan (conns : ConnMap) (sel : Option Service) (minConn : Int) :
    List Service → Option Service × Int
  | [] => (sel, minConn)
  | s :: rest =>
    let conn := lookupConn conns s.id
    if minConn = -1 ∨ conn < minConn then lcScan conns (some s) conn rest
    else lcScan conns sel minConn rest

/-- `LeastConnLoadBalancer.Select`: `none` on an empty list (the
no-services error); otherwise scan for the first service with the minimum
outstanding-connection count and increment that count.  Returns the
selection and the updated connection map. -/
def lcSelect (services : List Service) (conns : ConnMap) :
    Option Service × ConnMap :=
  if services.length = 0 then (none, conns)
  else
    match lcScan conns none (-1) services with
    | (some s, _) => (some s, insertAssoc s.id (lookupConn conns s.id + 1) conns)
    | (none, _) => (none, conns)

/-- `LeastConnLoadBalancer.ReleaseConnection`: decrement the count only
when the key exists with a strictly positive value. -/
def releaseConnection (conns : ConnMap) (serviceID : String) : ConnMap :=
  match lookupAssoc serviceID conns with
  | some c => if 0 < c then insertAssoc serviceID (c - 1) conns else conns
  | none => conns

/-- One call against the least-connection balancer. -/
inductive LcOp where
  | select (services : List Service)
  | release (serviceID : String)

/-- Apply one balancer call to the connection map. -/
def lcStep (conns : ConnMap) : LcOp → ConnMap
  | .select services => (lcSelect services conns).2
  | .release serviceID => releaseConnection conns serviceID

/-- Apply a sequence of balancer calls to the connection map. -/
def lcExec (conns : ConnMap) : List LcOp → ConnMap
  | [] => conns
  | op :: ops => lcExec (lcStep conns op) ops

/-! ## Lifecycle (Start/Stop of the three managers) -/

/-- `Manager.loadConfigRules`: add each configured rule through `AddRule`
(the built rule has no ID, so one is generated from the clock value of the
call); backend failures are logged and skipped. -/
def loadConfigRules (st : FwState) : List (Rule × Nat × Bool) → FwState
  | [] => st
  | (r, now, ok) :: rest =>
    loadConfigRules (addRule st { r with id := "", createdAt := 0 } now ok).2 rest

/-- Firewall `Manager.Start`: reject when already running; otherwise mark
running, set the default policies on the backend (`policiesOk` is that
call chain outcome), then load the configured rules. -/
def fwStart (st : FwState) (policiesOk : Bool)
    (cfg : List (Rule × Nat × Bool)) : Option String × FwState :=
  if st.running then
    (some "firewall manager is already running", st)
  else if !policiesOk then
    (some "failed to set default policies", { st with running := true })
  else
    (none, loadConfigRules { st with running := true } cfg)

/-- Firewall `Manager.Stop`: reject when not running; otherwise clear the
running flag (the rule store is untouched). -/
def fwStop (st : FwState) : Option String × FwState :=
  if !st.running then
    (some "firewall manager is not running", st)
  else
    (none, { st with running := false })

/-- Health `Checker.Start`: reject when already running; otherwise mark
running and spawn the probe loops (no change to the check store). -/
def checkerStart (st : CheckerState) : Option String × CheckerState :=
  if st.running then
    (some "health checker is already running", st)
  else
    (none, { st with running := true })

/-- Health `Checker.Stop`: reject when not running; otherwise clear the
running flag (the check store is untouched). -/
def checkerStop (st : CheckerState) : Option String × CheckerState :=
  if !st.running then
    (some "health checker is not running", st)
  else
    (none, { st with running := false })

/-- Service mesh `Manager.Start`: reject when already running; otherwise
mark running and spawn the discovery loop. -/
def smStart (st : SmState) : Option String × SmState :=
  if st.running then
    (some "service mesh manager is already running", st)
  else
    (none, { st with running := true })

/-- Service mesh `Manager.Stop`: reject when not running; otherwise clear
the running flag and deregister every service from the backend,
best-effort (the service store itself is untouched). -/
def smStop (st : SmState) : Option String × SmState :=
  if !st.running then
    (some "service mesh manager is not running", st)
  else
    (none, { st with running := false })

/-! ## Invariants and concrete sample data -/

/-- Every outstanding-connection count is non-negative. -/
def connNonneg (conns : ConnMap) : Prop := ∀ p ∈ conns, 0 ≤ p.2

/-- A concrete service instance used in concrete checks. -/
def mkService (i : String) (st : ServiceStatus) : Service :=
  { id := i, name := "web", address := "10.0.0.1", port := 8080, tags := [],
    meta := [], healthCheck := none, status := st, registeredAt := 0,
    lastSeen := 0 }

/-- A concrete firewall rule used in concrete checks. -/
def mkRule (i dp : String) : Rule :=
  { id := i, chain := "INPUT", protocol := "tcp", source := "", dest := "",
    sport := "", dport := dp, action := "ACCEPT", comment := "",
    createdAt := 0 }

/-- Two AddRule calls that (deliberately) reuse the explicit ID `x`, every
backend call succeeding. -/
def dupIdOps : List FwOp :=
  [.add (mkRule "x" "80") 1 true, .add (mkRule "x" "443") 2 true]

/-- A concrete health check record as a caller would construct it (the
unset Go struct fields `Status`/`LastCheck`/`Failures` are zero-valued). -/
def mkCheck (ty tgt : String) : Check :=
  { id := "", ctype := ty, target := tgt, interval := 0, timeout := 0,
    status := .passing, lastCheck := 0, failures := 0 }

/-! ## Association-list lemmas -/

theorem find_map_overwrite {α : Type} (k : String) (v : α) :
    ∀ l : List (String × α), l.any (fun q => q.1 = k) = true →
      (l.map (fun p => if p.1 = k then (k, v) else p)).find?
        (fun p => p.1 = k) = some (k, v) := by
  intro l
  induction l with
  | nil => simp
  | cons p rest ih =>
    intro hany
    by_cases hpk : p.1 = k
    · simp only [List.map_cons, if_pos hpk]
      exact List.find?_cons_of_pos _ (by simp)
    · simp only [List.any_cons, Bool.or_eq_true, decide_eq_true_eq,
        hpk, false_or] at hany
      simp only [List.map_cons, if_neg hpk]
      rw [List.find?_cons_of_neg _ (by simpa using hpk)]
      exact ih hany

theorem find_append_absent {α : Type} (k : String) (v : α)
    (l : List (String × α)) (hany : l.any (fun q => q.1 = k) = false) :
    (l ++ [(k, v)]).find? (fun p => p.1 = k) = some (k, v) := by
  rw [List.find?_append]
  have hnone : l.find? (fun p => (p.1 = k : Bool)) = none := by
    rw [List.find?_eq_none]
    intro x hx
    exact List.any_eq_false.mp hany x hx
  rw [hnone]
  simp

theorem lookupAssoc_insertAssoc_self {α : Type} (k : String) (v : α)
    (l : List (String × α)) : lookupAssoc k (insertAssoc k v l) = some v := by
  unfold lookupAssoc insertAssoc
  by_cases hany : l.any (fun q => q.1 = k)
  · rw [if_pos hany, find_map_overwrite k v l hany]
    rfl
  · rw [if_neg hany,
      find_append_absent k v l (Bool.eq_false_iff.mpr hany)]
    rfl

theorem lookupAssoc_insertAssoc_other {α : Type} (k k' : String) (v : α)
    (l : List (String × α)) (hne : k' ≠ k) :
    lookupAssoc k' (insertAssoc k v l) = lookupAssoc k' l := by
  unfold lookupAssoc insertAssoc
  by_cases hany : l.any (fun q => q.1 = k)
  · rw [if_pos hany]
    clear hany
    induction l with
    | nil => rfl
    | cons p rest ih =>
      by_cases hpk : p.1 = k
      · simp only [List.map_cons, if_pos hpk]
        rw [List.find?_cons_of_neg _ (by
            simp only [decide_eq_true_eq]
            exact fun h => hne h.symm),
          List.find?_cons_of_neg _ (by
            simp only [decide_eq_true_eq]
            exact fun h => hne (h ▸ hpk ▸ rfl))]
        exact ih
      · simp only [List.map_cons, if_neg hpk]
        by_cases hpk' : p.1 = k'
        · rw [List.find?_cons_of_pos _ (by simpa using hpk'),
            List.find?_cons_of_pos _ (by simpa using hpk')]
        · rw [List.find?_cons_of_neg _ (by simpa using hpk'),
            List.find?_cons_of_neg _ (by simpa using hpk')]
          exact ih
  · rw [if_neg hany, List.find?_append]
    have htail : List.find? (fun p => (p.1 = k' : Bool)) [(k, v)] = none := by
      have hkk : ¬ k = k' := fun h => hne h.symm
      simp [hkk]
    rw [htail]
    cases List.find? (fun p => (p.1 = k' : Bool)) l <;> rfl

theorem mem_insertAssoc {α : Type} (k : String) (v : α)
    (l : List (String × α)) (p : String × α) (hp : p ∈ insertAssoc k v l) :
    p ∈ l ∨ p = (k, v) := by
  unfold insertAssoc at hp
  by_cases hany : l.any (fun q => q.1 = k)
  · rw [if_pos hany] at hp
    rcases List.mem_map.mp hp with ⟨q, hq, hqe⟩
    by_cases hqk : q.1 = k
    · rw [if_pos hqk] at hqe
      exact Or.inr hqe.symm
    · rw [if_neg hqk] at hqe
      exact Or.inl (hqe ▸ hq)
  · rw [if_neg hany] at hp
    simpa using hp

/-! ## Claim theorems -/

/-- Claim C2: when the backend call fails, `AddRule` (firewall manager)
and `RegisterService` (service mesh manager) return an error and leave the
desired-state store exactly as it was: no partial record is inserted. -/
theorem addRule_registerService_backend_failure (fw : FwState) (r : Rule)
    (sm : SmState) (s : Service) (now : Nat) :
    addRule fw r now false = (some "failed to add rule", fw) ∧
    registerService sm s now false = (some "failed to register service", sm) := by
  constructor
  · simp [addRule]
  · simp [registerService]

theorem effService_status (s : Service) (now : Nat) :
    (effService s now).status = ServiceStatus.unknown := by
  unfold effService
  split <;> rfl

theorem effService_healthCheck (s : Service) (now : Nat) :
    (effService s now).healthCheck = s.healthCheck := by
  unfold effService
  split <;> rfl

/-- Claim C8 counterexample: registering a service with no health-check
spec (the discovery backend call succeeding) stores it with status
Unknown, not Healthy, and the stored instance is not eligible for
selection: `SelectService` over it alone fails with the
no-healthy-instances error. -/
theorem registerService_nil_healthcheck_cex :
    (mkService "s1" ServiceStatus.unknown).healthCheck = none ∧
    lookupAssoc "s1"
      (registerService ⟨false, []⟩ (mkService "s1" ServiceStatus.unknown) 5
        true).2.services =
      some (effService (mkService "s1" ServiceStatus.unknown) 5) ∧
    (effService (mkService "s1" ServiceStatus.unknown) 5).status =
      ServiceStatus.unknown ∧
    (effService (mkService "s1" ServiceStatus.unknown) 5).status ≠
      ServiceStatus.healthy ∧
    selectService [effService (mkService "s1" ServiceStatus.unknown) 5]
      (fun l => (rrSelect l 0).1) "web" =
      .error "no healthy instances found for service: web" := by
  refine ⟨rfl, ?_, rfl, by decide, rfl⟩
  decide

/-- Claim C8 (amended): immediately after a successful `RegisterService`
the stored record has status Unknown no matter whether a health-check
spec is present; a service without a spec is not treated as Healthy (and
so is not eligible for selection) until its status is explicitly
updated. -/
theorem registerService_stores_unknown (st : SmState) (s : Service)
    (now : Nat) :
    lookupAssoc (effService s now).id
      (registerService st s now true).2.services = some (effService s now) ∧
    (effService s now).status = ServiceStatus.unknown ∧
    (effService s now).healthCheck = s.healthCheck := by
  refine ⟨?_, effService_status s now, effService_healthCheck s now⟩
  simp only [registerService, if_pos]
  exact lookupAssoc_insertAssoc_self _ _ _

/-- Claim C9: for each of the three managers, Start while running fails
with the already-running error, Stop while not running (a second
consecutive Stop included) fails with the not-running error, and in every
such error case the state — the desired-state store included — is
returned unchanged. -/
theorem manager_lifecycle_errors :
    (∀ (fw : FwState) (pOk : Bool) (cfg : List (Rule × Nat × Bool)),
       fw.running = true →
       fwStart fw pOk cfg = (some "firewall manager is already running", fw)) ∧
    (∀ fw : FwState, fw.running = false →
       fwStop fw = (some "firewall manager is not running", fw)) ∧
    (∀ fw : FwState, fw.running = true →
       fwStop (fwStop fw).2 =
         (some "firewall manager is not running", (fwStop fw).2)) ∧
    (∀ cs : CheckerState, cs.running = true →
       checkerStart cs = (some "health checker is already running", cs)) ∧
    (∀ cs : CheckerState, cs.running = false →
       checkerStop cs = (some "health checker is not running", cs)) ∧
    (∀ cs : CheckerState, cs.running = true →
       checkerStop (checkerStop cs).2 =
         (some "health checker is not running", (checkerStop cs).2)) ∧
    (∀ sm : SmState, sm.running = true →
       smStart sm = (some "service mesh manager is already running", sm)) ∧
    (∀ sm : SmState, sm.running = false →
       smStop sm = (some "service mesh manager is not running", sm)) ∧
    (∀ sm : SmState, sm.running = true →
       smStop (smStop sm).2 =
         (some "service mesh manager is not running", (smStop sm).2)) := by
  refine ⟨?_, ?_, ?_, ?_, ?_, ?_, ?_, ?_, ?_⟩ <;> intro st h
  case _ => intro cfg hr; simp [fwStart, hr]
  all_goals first
    | simp [fwStop, h]
    | simp [checkerStart, h]
    | simp [checkerStop, h]
    | simp [smStart, h]
    | simp [smStop, h]

theorem manager_lifecycle_errors_witness :
    fwStart ⟨true, []⟩ true [] =
      (some "firewall manager is already running", (⟨true, []⟩ : FwState)) ∧
    fwStop ⟨false, []⟩ =
      (some "firewall manager is not running", (⟨false, []⟩ : FwState)) ∧
    fwStop (fwStop ⟨true, []⟩).2 =
      (some "firewall manager is not running", (fwStop ⟨true, []⟩).2) ∧
    checkerStart ⟨true, []⟩ =
      (some "health checker is already running", (⟨true, []⟩ : CheckerState)) ∧
    checkerStop ⟨false, []⟩ =
      (some "health checker is not running", (⟨false, []⟩ : CheckerState)) ∧
    checkerStop (checkerStop ⟨true, []⟩).2 =
      (some "health checker is not running", (checkerStop ⟨true, []⟩).2) ∧
    smStart ⟨true, []⟩ =
      (some "service mesh manager is already running", (⟨true, []⟩ : SmState)) ∧
    smStop ⟨false, []⟩ =
      (some "service mesh manager is not running", (⟨false, []⟩ : SmState)) ∧
    smStop (smStop ⟨true, []⟩).2 =
      (some "service mesh manager is not running", (smStop ⟨true, []⟩).2) :=
  ⟨manager_lifecycle_errors.1 ⟨true, []⟩ true [] rfl,
   manager_lifecycle_errors.2.1 ⟨false, []⟩ rfl,
   manager_lifecycle_errors.2.2.1 ⟨true, []⟩ rfl,
   manager_lifecycle_errors.2.2.2.1 ⟨true, []⟩ rfl,
   manager_lifecycle_errors.2.2.2.2.1 ⟨false, []⟩ rfl,
   manager_lifecycle_errors.2.2.2.2.2.1 ⟨true, []⟩ rfl,
   manager_lifecycle_errors.2.2.2.2.2.2.1 ⟨true, []⟩ rfl,
   manager_lifecycle_errors.2.2.2.2.2.2.2.1 ⟨false, []⟩ rfl,
   manager_lifecycle_errors.2.2.2.2.2.2.2.2 ⟨true, []⟩ rfl⟩

/-- Claim C4 counterexample: when discovery succeeds with an empty
instance list — so that no instance is Healthy — `SelectService` fails
with the no-instances-found error, not with the no-healthy-instances
error the claim names. -/
theorem selectService_empty_discovery_cex :
    selectService [] (fun l => (rrSelect l 0).1) "web" =
      .error "no instances found for service: web" ∧
    ("no instances found for service: web" : String) ≠
      "no healthy instances found for service: web" :=
  ⟨rfl, by decide⟩

/-- Claim C4 (amended): after a successful discovery call,
`SelectService` fails with a no-instances-found error when the discovered
list is empty; when it is non-empty but contains no Healthy instance it
fails with the no-healthy-instances error; otherwise it returns the
configured load balancer selection over exactly the Healthy subset. -/
theorem selectService_healthy_filter (services : List Service)
    (lb : List Service → Except String Service) (name : String) :
    (services = [] →
       selectService services lb name =
         .error ("no instances found for service: " ++ name)) ∧
    (services ≠ [] → (∀ s ∈ services, s.status ≠ ServiceStatus.healthy) →
       selectService services lb name =
         .error ("no healthy instances found for service: " ++ name)) ∧
    (services.filter (fun s => s.status = ServiceStatus.healthy) ≠ [] →
       selectService services lb name =
         lb (services.filter (fun s => s.status = ServiceStatus.healthy))) := by
  refine ⟨?_, ?_, ?_⟩
  · intro h
    subst h
    rfl
  · intro hne hall
    have hlen : services.length ≠ 0 := by
      simpa [List.length_eq_zero] using hne
    have hfil : services.filter (fun s => s.status = ServiceStatus.healthy)
        = [] := by
      rw [List.filter_eq_nil_iff]
      intro s hs
      simpa using hall s hs
    simp [selectService, hlen, hfil]
  · intro hfil
    have hser : services ≠ [] := by
      intro h
      subst h
      simp at hfil
    have hlen : services.length ≠ 0 := by
      simpa [List.length_eq_zero] using hser
    have hflen :
        (services.filter (fun s => s.status = ServiceStatus.healthy)).length
          ≠ 0 := by
      simpa [List.length_eq_zero] using hfil
    simp [selectService, hlen, hflen]

theorem selectService_healthy_filter_witness :
    (selectService [] (fun l => (rrSelect l 0).1) "web" =
       .error "no instances found for service: web") ∧
    (selectService [mkService "u" ServiceStatus.unhealthy]
       (fun l => (rrSelect l 0).1) "web" =
       .error "no healthy instances found for service: web") ∧
    (selectService [mkService "h" ServiceStatus.healthy]
       (fun l => (rrSelect l 0).1) "web" =
       (fun l => (rrSelect l 0).1) [mkService "h" ServiceStatus.healthy]) :=
  ⟨(selectService_healthy_filter [] (fun l => (rrSelect l 0).1) "web").1 rfl,
   (selectService_healthy_filter [mkService "u" ServiceStatus.unhealthy]
      (fun l => (rrSelect l 0).1) "web").2.1 (by decide)
      (by decide),
   by
     have h := (selectService_healthy_filter
        [mkService "h" ServiceStatus.healthy]
        (fun l => (rrSelect l 0).1) "web").2.2 (by decide)
     simpa using h⟩

theorem addCheck_ctype (c : Check) (now : Nat) :
    (addCheck c now).ctype = c.ctype := by
  rfl

theorem addCheck_failures (c : Check) (now : Nat) :
    (addCheck c now).failures = c.failures := by
  rfl

theorem addCheck_status (c : Check) (now : Nat) :
    (addCheck c now).status = CheckStatus.passing := by
  rfl

theorem performCheck_fail_known (c : Check) (now : Nat)
    (hty : knownCheckTypes.contains c.ctype = true) :
    performCheck c true now =
      { c with lastCheck := now, failures := c.failures + 1,
               status := if 3 ≤ c.failures + 1 then CheckStatus.critical
                         else CheckStatus.warning } := by
  have hmem : c.ctype ∈ knownCheckTypes := by simpa using hty
  simp [performCheck, hmem]

theorem performCheck_pass_known (c : Check) (now : Nat)
    (hty : knownCheckTypes.contains c.ctype = true) :
    performCheck c false now =
      { c with lastCheck := now, failures := 0,
               status := CheckStatus.passing } := by
  have hmem : c.ctype ∈ knownCheckTypes := by simpa using hty
  simp [performCheck, hmem]

/-- Claim C3: a newly added health check (a fresh record has failure
counter 0) starts Passing with counter 0; a probe failure increments the
consecutive-failure counter and yields Critical exactly when the counter
reaches 3 and Warning below that; a probe success resets the counter to 0
and yields Passing; in particular two consecutive failures from the start
give Warning and a third gives Critical. -/
theorem health_state_machine (c : Check) (now n1 n2 n3 : Nat)
    (h0 : c.failures = 0) (hty : knownCheckTypes.contains c.ctype = true) :
    (addCheck c now).status = CheckStatus.passing ∧
    (addCheck c now).failures = 0 ∧
    (∀ (d : Check) (m : Nat), knownCheckTypes.contains d.ctype = true →
       (performCheck d true m).failures = d.failures + 1 ∧
       (performCheck d true m).status =
         (if 3 ≤ d.failures + 1 then CheckStatus.critical
          else CheckStatus.warning) ∧
       (performCheck d false m).failures = 0 ∧
       (performCheck d false m).status = CheckStatus.passing) ∧
    (performCheck (performCheck (addCheck c now) true n1) true n2).status =
      CheckStatus.warning ∧
    (performCheck (performCheck (performCheck (addCheck c now) true n1)
      true n2) true n3).status = CheckStatus.critical := by
  have hty0 : knownCheckTypes.contains (addCheck c now).ctype = true := by
    rw [addCheck_ctype]; exact hty
  have e1 := performCheck_fail_known (addCheck c now) n1 hty0
  have hty1 : knownCheckTypes.contains
      (performCheck (addCheck c now) true n1).ctype = true := by
    rw [e1]; exact hty0
  have e2 := performCheck_fail_known _ n2 hty1
  have hty2 : knownCheckTypes.contains
      (performCheck (performCheck (addCheck c now) true n1) true n2).ctype
        = true := by
    rw [e2]; exact hty1
  have e3 := performCheck_fail_known _ n3 hty2
  refine ⟨addCheck_status c now, (addCheck_failures c now).trans h0, ?_,
    ?_, ?_⟩
  · intro d m htyd
    rw [performCheck_fail_known d m htyd, performCheck_pass_known d m htyd]
    exact ⟨rfl, rfl, rfl, rfl⟩
  · rw [e2, e1]
    simp [addCheck_failures, h0]
  · rw [e3, e2, e1]
    simp [addCheck_failures, h0]

theorem health_state_machine_witness :
    (mkCheck "http" "http://x/health").failures = 0 ∧
    knownCheckTypes.contains (mkCheck "http" "http://x/health").ctype
      = true ∧
    ((addCheck (mkCheck "http" "http://x/health") 0).status =
       CheckStatus.passing ∧
     (addCheck (mkCheck "http" "http://x/health") 0).failures = 0 ∧
     (∀ (d : Check) (m : Nat), knownCheckTypes.contains d.ctype = true →
        (performCheck d true m).failures = d.failures + 1 ∧
        (performCheck d true m).status =
          (if 3 ≤ d.failures + 1 then CheckStatus.critical
           else CheckStatus.warning) ∧
        (performCheck d false m).failures = 0 ∧
        (performCheck d false m).status = CheckStatus.passing) ∧
     (performCheck (performCheck (addCheck (mkCheck "http" "http://x/health") 0)
        true 1) true 2).status = CheckStatus.warning ∧
     (performCheck (performCheck (performCheck
        (addCheck (mkCheck "http" "http://x/health") 0) true 1) true 2)
        true 3).status = CheckStatus.critical) :=
  ⟨rfl, rfl,
   health_state_machine (mkCheck "http" "http://x/health") 0 1 2 3 rfl rfl⟩

theorem mem_syncFold (backendRules : List Rule) (r : Rule) :
    ∀ l : List Rule,
      BackendCall.addCall r ∈
        l.foldr (fun x acc =>
          if backendRules.any (fun br => rulesEqual x br) then acc
          else BackendCall.addCall x :: acc) [] ↔
      r ∈ l ∧ backendRules.any (fun br => rulesEqual r br) = false := by
  intro l
  induction l with
  | nil => simp
  | cons x rest ih =>
    simp only [List.foldr_cons]
    by_cases hx : backendRules.any (fun br => rulesEqual x br)
    · rw [if_pos hx, ih]
      constructor
      · rintro ⟨hr, hf⟩
        exact ⟨List.mem_cons_of_mem _ hr, hf⟩
      · rintro ⟨hr, hf⟩
        rcases List.mem_cons.mp hr with h | h
        · subst h
          exact absurd hx (by simp [hf])
        · exact ⟨h, hf⟩
    · rw [if_neg hx]
      constructor
      · intro hm
        rcases List.mem_cons.mp hm with h | h
        · cases h
          exact ⟨List.mem_cons_self _ _, Bool.eq_false_iff.mpr hx⟩
        · rcases ih.mp h with ⟨hr, hf⟩
          exact ⟨List.mem_cons_of_mem _ hr, hf⟩
      · rintro ⟨hr, hf⟩
        rcases List.mem_cons.mp hr with h | h
        · subst h
          exact List.mem_cons_self _ _
        · exact List.mem_cons_of_mem _ (ih.mpr ⟨h, hf⟩)

theorem syncFold_only_adds (backendRules : List Rule) :
    ∀ (l : List Rule) (c : BackendCall),
      c ∈ l.foldr (fun x acc =>
        if backendRules.any (fun br => rulesEqual x br) then acc
        else BackendCall.addCall x :: acc) [] →
      ∃ x, x ∈ l ∧ backendRules.any (fun br => rulesEqual x br) = false ∧
        c = BackendCall.addCall x := by
  intro l
  induction l with
  | nil => simp
  | cons x rest ih =>
    intro c hc
    simp only [List.foldr_cons] at hc
    by_cases hx : backendRules.any (fun br => rulesEqual x br)
    · rw [if_pos hx] at hc
      rcases ih c hc with ⟨y, hy, hf, he⟩
      exact ⟨y, List.mem_cons_of_mem _ hy, hf, he⟩
    · rw [if_neg hx] at hc
      rcases List.mem_cons.mp hc with h | h
      · exact ⟨x, List.mem_cons_self _ _, Bool.eq_false_iff.mpr hx, h⟩
      · rcases ih c h with ⟨y, hy, hf, he⟩
        exact ⟨y, List.mem_cons_of_mem _ hy, hf, he⟩

/-- Claim C5: a periodic sync pass issues no backend `DeleteRule` call at
all; it issues a backend `AddRule` call for a desired rule exactly when no
backend-listed rule equals it under `rulesEqual` (structural equality on
chain/protocol/source/dest/sport/dport/action), and every call it issues
is such a re-add of a stored rule — backend rules absent from the desired
store are never removed. -/
theorem sync_conservative (st : FwState) (backendRules : List Rule) :
    (∀ r : Rule, BackendCall.delCall r ∉ syncCalls st backendRules) ∧
    (∀ r ∈ listRules st,
       (BackendCall.addCall r ∈ syncCalls st backendRules ↔
        backendRules.any (fun br => rulesEqual r br) = false)) ∧
    (∀ c ∈ syncCalls st backendRules, ∃ x, x ∈ listRules st ∧
       backendRules.any (fun br => rulesEqual x br) = false ∧
       c = BackendCall.addCall x) := by
  refine ⟨?_, ?_, ?_⟩
  · intro r hmem
    rcases syncFold_only_adds backendRules (listRules st) _ hmem
      with ⟨x, _, _, he⟩
    cases he
  · intro r hr
    constructor
    · intro hmem
      exact ((mem_syncFold backendRules r (listRules st)).mp hmem).2
    · intro hf
      exact (mem_syncFold backendRules r (listRules st)).mpr ⟨hr, hf⟩
  · exact syncFold_only_adds backendRules (listRules st)

theorem sync_conservative_witness :
    (∀ r : Rule,
       BackendCall.delCall r ∉
         syncCalls ⟨true, [("x", mkRule "x" "80")]⟩ []) ∧
    (mkRule "x" "80" ∈ listRules ⟨true, [("x", mkRule "x" "80")]⟩ ∧
     (BackendCall.addCall (mkRule "x" "80") ∈
        syncCalls ⟨true, [("x", mkRule "x" "80")]⟩ [] ↔
      ([] : List Rule).any (fun br => rulesEqual (mkRule "x" "80") br)
        = false)) :=
  ⟨(sync_conservative ⟨true, [("x", mkRule "x" "80")]⟩ []).1,
   by decide,
   (sync_conservative ⟨true, [("x", mkRule "x" "80")]⟩ []).2.1
     (mkRule "x" "80") (by decide)⟩

/-- Claim C6: round-robin Select over a fixed non-empty list returns the
element at index counter-mod-length for the shared counter that is
incremented (as a uint64) by each call; over 3 distinct instances
[A, B, C], 6 successive calls from a fresh balancer select each instance
exactly twice in rotating order. -/
theorem round_robin_rotation :
    (∀ (services : List Service) (counter : Nat), services ≠ [] →
       (rrSelect services counter).2 = (counter + 1) % uint64Mod ∧
       ∃ s, (rrSelect services counter).1 = Except.ok s ∧
         services.get? (((counter + 1) % uint64Mod) % services.length)
           = some s) ∧
    (∀ A B C : Service, (rrRun [A, B, C] 0 6).1 = [B, C, A, B, C, A]) ∧
    (∀ A B C : Service, A ≠ B → A ≠ C → B ≠ C →
       (rrRun [A, B, C] 0 6).1.count A = 2 ∧
       (rrRun [A, B, C] 0 6).1.count B = 2 ∧
       (rrRun [A, B, C] 0 6).1.count C = 2) := by
  refine ⟨?_, ?_, ?_⟩
  · intro services counter hne
    have hlen : services.length ≠ 0 := by
      simpa [List.length_eq_zero] using hne
    have hpos : ((counter + 1) % uint64Mod) % services.length
        < services.length :=
      Nat.mod_lt _ (Nat.pos_of_ne_zero hlen)
    refine ⟨by simp [rrSelect, hlen], ?_⟩
    refine ⟨services.get ⟨((counter + 1) % uint64Mod) % services.length,
      hpos⟩, ?_, (List.get?_eq_get hpos)⟩
    simp [rrSelect, hlen]
  · intro A B C
    simp [rrRun, rrSelect, uint64Mod]
  · intro A B C hAB hAC hBC
    have h6 : (rrRun [A, B, C] 0 6).1 = [B, C, A, B, C, A] := by
      simp [rrRun, rrSelect, uint64Mod]
    rw [h6]
    have hBA : B ≠ A := fun h => hAB h.symm
    have hCA : C ≠ A := fun h => hAC h.symm
    have hCB : C ≠ B := fun h => hBC h.symm
    simp [List.count_cons, hAB, hAC, hBC, hBA, hCA, hCB]

theorem round_robin_rotation_witness :
    ([mkService "A" ServiceStatus.healthy] ≠ ([] : List Service) ∧
     ((rrSelect [mkService "A" ServiceStatus.healthy] 0).2
        = (0 + 1) % uint64Mod ∧
      ∃ s, (rrSelect [mkService "A" ServiceStatus.healthy] 0).1
          = Except.ok s ∧
        [mkService "A" ServiceStatus.healthy].get?
          (((0 + 1) % uint64Mod) %
            [mkService "A" ServiceStatus.healthy].length) = some s)) ∧
    ((rrRun [mkService "A" ServiceStatus.healthy,
       mkService "B" ServiceStatus.healthy,
       mkService "C" ServiceStatus.healthy] 0 6).1.count
         (mkService "A" ServiceStatus.healthy) = 2 ∧
     (rrRun [mkService "A" ServiceStatus.healthy,
       mkService "B" ServiceStatus.healthy,
       mkService "C" ServiceStatus.healthy] 0 6).1.count
         (mkService "B" ServiceStatus.healthy) = 2 ∧
     (rrRun [mkService "A" ServiceStatus.healthy,
       mkService "B" ServiceStatus.healthy,
       mkService "C" ServiceStatus.healthy] 0 6).1.count
         (mkService "C" ServiceStatus.healthy) = 2) :=
  ⟨⟨by decide,
    round_robin_rotation.1 [mkService "A" ServiceStatus.healthy] 0
      (by decide)⟩,
   round_robin_rotation.2.2 (mkService "A" ServiceStatus.healthy)
     (mkService "B" ServiceStatus.healthy)
     (mkService "C" ServiceStatus.healthy)
     (by decide) (by decide) (by decide)⟩

theorem connNonneg_lookup (conns : ConnMap) (h : connNonneg conns)
    (i : String) : 0 ≤ lookupConn conns i := by
  unfold lookupConn lookupAssoc
  cases hf : conns.find? (fun p => p.1 = i) with
  | none => simp
  | some q =>
    have hq := List.mem_of_find?_eq_some hf
    simpa using h q hq

theorem connNonneg_insert (conns : ConnMap) (h : connNonneg conns)
    (k : String) (v : Int) (hv : 0 ≤ v) :
    connNonneg (insertAssoc k v conns) := by
  intro p hp
  rcases mem_insertAssoc k v conns p hp with hin | heq
  · exact h p hin
  · rw [heq]
    exact hv

theorem lcSelect_some_conns (conns : ConnMap) (services : List Service)
    (s : Service) (hs : (lcSelect services conns).1 = some s) :
    (lcSelect services conns).2 =
      insertAssoc s.id (lookupConn conns s.id + 1) conns := by
  unfold lcSelect at hs ⊢
  by_cases hlen : services.length = 0
  · rw [if_pos hlen] at hs
    cases hs
  · rw [if_neg hlen] at hs ⊢
    rcases hscan : lcScan conns none (-1) services with ⟨osel, m⟩
    rw [hscan] at hs
    cases osel with
    | none => exact absurd hs (by simp)
    | some t =>
      have ht : t = s := by simpa using hs
      subst ht
      rfl

theorem lcSelect_none_conns (conns : ConnMap) (services : List Service)
    (hs : (lcSelect services conns).1 = none) :
    (lcSelect services conns).2 = conns := by
  unfold lcSelect at hs ⊢
  by_cases hlen : services.length = 0
  · rw [if_pos hlen]
  · rw [if_neg hlen] at hs ⊢
    rcases hscan : lcScan conns none (-1) services with ⟨osel, m⟩
    rw [hscan] at hs
    cases osel with
    | none => rfl
    | some t => exact absurd hs (by simp)

/-- Claim C10: every per-service outstanding-connection count stays
non-negative under any sequence of Select and ReleaseConnection calls:
Select raises only the selected service's count, by one, and
ReleaseConnection lowers a count by one only when the key exists with a
strictly positive value, being a no-op otherwise. -/
theorem least_conn_counts_nonneg :
    (∀ (conns : ConnMap) (ops : List LcOp), connNonneg conns →
       connNonneg (lcExec conns ops)) ∧
    (∀ (conns : ConnMap) (services : List Service) (s : Service),
       (lcSelect services conns).1 = some s →
       lookupConn (lcSelect services conns).2 s.id
         = lookupConn conns s.id + 1 ∧
       (∀ i : String, i ≠ s.id →
         lookupConn (lcSelect services conns).2 i = lookupConn conns i)) ∧
    (∀ (conns : ConnMap) (i : String),
       lookupAssoc i conns = none → releaseConnection conns i = conns) ∧
    (∀ (conns : ConnMap) (i : String) (c : Int),
       lookupAssoc i conns = some c → ¬ 0 < c →
       releaseConnection conns i = conns) ∧
    (∀ (conns : ConnMap) (i : String) (c : Int),
       lookupAssoc i conns = some c → 0 < c →
       releaseConnection conns i = insertAssoc i (c - 1) conns) := by
  have hrel_none : ∀ (conns : ConnMap) (i : String),
      lookupAssoc i conns = none → releaseConnection conns i = conns := by
    intro conns i h
    unfold releaseConnection
    rw [h]
  have hrel_nonpos : ∀ (conns : ConnMap) (i : String) (c : Int),
      lookupAssoc i conns = some c → ¬ 0 < c →
      releaseConnection conns i = conns := by
    intro conns i c h hc
    unfold releaseConnection
    rw [h]
    exact if_neg hc
  have hrel_pos : ∀ (conns : ConnMap) (i : String) (c : Int),
      lookupAssoc i conns = some c → 0 < c →
      releaseConnection conns i = insertAssoc i (c - 1) conns := by
    intro conns i c h hc
    unfold releaseConnection
    rw [h]
    exact if_pos hc
  have hstep : ∀ (conns : ConnMap) (op : LcOp), connNonneg conns →
      connNonneg (lcStep conns op) := by
    intro conns op h
    cases op with
    | select services =>
      rcases hsel : (lcSelect services conns).1 with _ | s
      · rw [lcStep, lcSelect_none_conns conns services hsel]
        exact h
      · rw [lcStep, lcSelect_some_conns conns services s hsel]
        exact connNonneg_insert conns h _ _
          (by
            have := connNonneg_lookup conns h s.id
            omega)
    | release i =>
      rcases hl : lookupAssoc i conns with _ | c
      · rw [lcStep, hrel_none conns i hl]
        exact h
      · by_cases hc : 0 < c
        · rw [lcStep, hrel_pos conns i c hl hc]
          exact connNonneg_insert conns h _ _ (by omega)
        · rw [lcStep, hrel_nonpos conns i c hl hc]
          exact h
  refine ⟨?_, ?_, hrel_none, hrel_nonpos, hrel_pos⟩
  · intro conns ops
    induction ops generalizing conns with
    | nil => exact fun h => h
    | cons op rest ih =>
      intro h
      exact ih (lcStep conns op) (hstep conns op h)
  · intro conns services s hs
    rw [lcSelect_some_conns conns services s hs]
    constructor
    · rw [lookupConn, lookupAssoc_insertAssoc_self]
      rfl
    · intro i hi
      rw [lookupConn, lookupAssoc_insertAssoc_other _ _ _ _ hi]
      rfl

theorem least_conn_counts_nonneg_witness :
    connNonneg (lcExec []
      [LcOp.select [mkService "A" ServiceStatus.healthy],
       LcOp.release "A", LcOp.release "A"]) ∧
    ((lcSelect [mkService "A" ServiceStatus.healthy] []).1
       = some (mkService "A" ServiceStatus.healthy) ∧
     lookupConn (lcSelect [mkService "A" ServiceStatus.healthy] []).2 "A"
       = lookupConn ([] : ConnMap) "A" + 1) ∧
    releaseConnection [("A", (0 : Int))] "A" = [("A", (0 : Int))] ∧
    releaseConnection [("A", (1 : Int))] "A"
      = insertAssoc "A" ((1 : Int) - 1) [("A", (1 : Int))] ∧
    releaseConnection ([] : ConnMap) "B" = ([] : ConnMap) :=
  ⟨least_conn_counts_nonneg.1 []
     [LcOp.select [mkService "A" ServiceStatus.healthy],
      LcOp.release "A", LcOp.release "A"]
     (by intro p hp; cases hp),
   ⟨by decide,
    (least_conn_counts_nonneg.2.1 [] [mkService "A" ServiceStatus.healthy]
       (mkService "A" ServiceStatus.healthy) (by decide)).1⟩,
   least_conn_counts_nonneg.2.2.2.1 [("A", (0 : Int))] "A" 0 (by decide)
     (by decide),
   least_conn_counts_nonneg.2.2.2.2 [("A", (1 : Int))] "A" 1 (by decide)
     (by decide),
   least_conn_counts_nonneg.2.2.1 [] "B" (by decide)⟩

theorem lcScan_first_min (conns : ConnMap) :
    ∀ (l : List Service) (s0 : Service),
      (∀ t ∈ l, 0 ≤ lookupConn conns t.id) →
      0 ≤ lookupConn conns s0.id →
      ∃ s, lcScan conns (some s0) (lookupConn conns s0.id) l
          = (some s, lookupConn conns s.id) ∧
        s ∈ s0 :: l ∧
        lookupConn conns s.id ≤ lookupConn conns s0.id ∧
        (∀ t ∈ l, lookupConn conns s.id ≤ lookupConn conns t.id) ∧
        (s0 :: l).find?
          (fun t => decide (lookupConn conns t.id = lookupConn conns s.id))
          = some s := by
  intro l
  induction l with
  | nil =>
    intro s0 _ _
    refine ⟨s0, rfl, List.mem_singleton.mpr rfl, le_refl _, by simp, ?_⟩
    exact List.find?_cons_of_pos _ (by simp)
  | cons x rest ih =>
    intro s0 hl h0
    have hx : 0 ≤ lookupConn conns x.id := hl x (List.mem_cons_self _ _)
    have hrest : ∀ t ∈ rest, 0 ≤ lookupConn conns t.id :=
      fun t ht => hl t (List.mem_cons_of_mem _ ht)
    simp only [lcScan]
    by_cases hlt : lookupConn conns x.id < lookupConn conns s0.id
    · rw [if_pos (Or.inr hlt)]
      obtain ⟨s, hscan, hmem, hle, hmin, hfind⟩ := ih x hrest hx
      refine ⟨s, hscan, ?_, ?_, ?_, ?_⟩
      · exact List.mem_cons_of_mem _ hmem
      · exact hle.trans hlt.le
      · intro t ht
        rcases List.mem_cons.mp ht with h | h
        · exact h ▸ hle
        · exact hmin t h
      · rw [List.find?_cons_of_neg _ (by
          simp only [decide_eq_true_eq]
          omega)]
        exact hfind
    · have hne : ¬ lookupConn conns s0.id = -1 := by omega
      rw [if_neg (by
        push_neg
        exact ⟨hne, not_lt.mp hlt⟩)]
      obtain ⟨s, hscan, hmem, hle, hmin, hfind⟩ := ih s0 hrest h0
      have hxs : lookupConn conns s0.id ≤ lookupConn conns x.id :=
        not_lt.mp hlt
      refine ⟨s, hscan, ?_, hle, ?_, ?_⟩
      · rcases List.mem_cons.mp hmem with h | h
        · exact h ▸ List.mem_cons_self _ _
        · exact List.mem_cons_of_mem _ (List.mem_cons_of_mem _ h)
      · intro t ht
        rcases List.mem_cons.mp ht with h | h
        · exact h ▸ (hle.trans hxs)
        · exact hmin t h
      · by_cases hps : lookupConn conns s0.id = lookupConn conns s.id
        · have hhead : (s0 :: rest).find?
              (fun t => decide (lookupConn conns t.id
                = lookupConn conns s.id)) = some s0 :=
            List.find?_cons_of_pos _ (by simp [hps])
          have hss : s = s0 := by
            rw [hfind] at hhead
            exact Option.some.inj hhead
          rw [List.find?_cons_of_pos _ (by simp [hps])]
          rw [hss]
        · have htail : rest.find?
              (fun t => decide (lookupConn conns t.id
                = lookupConn conns s.id)) = some s := by
            have h1 := hfind
            rwa [List.find?_cons_of_neg _ (by simp [hps])] at h1
          have hpx : ¬ lookupConn conns x.id = lookupConn conns s.id := by
            omega
          rw [List.find?_cons_of_neg _ (by simp [hps]),
            List.find?_cons_of_neg _ (by simp [hpx])]
          exact htail

/-- Claim C7: least-connection Select over a non-empty list (with the
reachable, non-negative connection counts) returns the first service in
list order whose outstanding-connection count equals the minimum and
increments exactly that count; with counts A:2, B:0, C:1 it returns B and
bumps B to 1, and with all counts equal it returns the first service in
list order. -/
theorem least_conn_select_first_min :
    (∀ (services : List Service) (conns : ConnMap),
       services ≠ [] →
       (∀ t ∈ services, 0 ≤ lookupConn conns t.id) →
       ∃ s, lcSelect services conns
           = (some s, insertAssoc s.id (lookupConn conns s.id + 1) conns) ∧
         s ∈ services ∧
         (∀ t ∈ services, lookupConn conns s.id ≤ lookupConn conns t.id) ∧
         services.find?
           (fun t => decide (lookupConn conns t.id = lookupConn conns s.id))
           = some s) ∧
    ((lcSelect [mkService "A" ServiceStatus.healthy,
        mkService "B" ServiceStatus.healthy,
        mkService "C" ServiceStatus.healthy]
        [("A", 2), ("B", 0), ("C", 1)]).1
       = some (mkService "B" ServiceStatus.healthy) ∧
     (lcSelect [mkService "A" ServiceStatus.healthy,
        mkService "B" ServiceStatus.healthy,
        mkService "C" ServiceStatus.healthy]
        [("A", 2), ("B", 0), ("C", 1)]).2
       = [("A", 2), ("B", 1), ("C", 1)] ∧
     (lcSelect [mkService "A" ServiceStatus.healthy,
        mkService "B" ServiceStatus.healthy,
        mkService "C" ServiceStatus.healthy]
        [("A", 1), ("B", 1), ("C", 1)]).1
       = some (mkService "A" ServiceStatus.healthy)) := by
  refine ⟨?_, by decide, by decide, by decide⟩
  intro services conns hne hnn
  obtain ⟨x, rest, rfl⟩ : ∃ x rest, services = x :: rest := by
    cases services with
    | nil => exact absurd rfl hne
    | cons x rest => exact ⟨x, rest, rfl⟩
  have hx : 0 ≤ lookupConn conns x.id := hnn x (List.mem_cons_self _ _)
  have hrest : ∀ t ∈ rest, 0 ≤ lookupConn conns t.id :=
    fun t ht => hnn t (List.mem_cons_of_mem _ ht)
  obtain ⟨s, hscan, hmem, hle, hmin, hfind⟩ :=
    lcScan_first_min conns rest x hrest hx
  refine ⟨s, ?_, hmem, ?_, hfind⟩
  · unfold lcSelect
    rw [if_neg (by simp)]
    simp only [lcScan]
    rw [if_pos (Or.inl trivial), hscan]
  · intro t ht
    rcases List.mem_cons.mp ht with h | h
    · exact h ▸ hle
    · exact hmin t h

theorem least_conn_select_first_min_witness :
    ([mkService "A" ServiceStatus.healthy] ≠ ([] : List Service)) ∧
    (∀ t ∈ [mkService "A" ServiceStatus.healthy],
       0 ≤ lookupConn [("A", 2)] t.id) ∧
    (∃ s, lcSelect [mkService "A" ServiceStatus.healthy] [("A", 2)]
        = (some s, insertAssoc s.id (lookupConn [("A", 2)] s.id + 1)
            [("A", 2)]) ∧
      s ∈ [mkService "A" ServiceStatus.healthy] ∧
      (∀ t ∈ [mkService "A" ServiceStatus.healthy],
        lookupConn [("A", 2)] s.id ≤ lookupConn [("A", 2)] t.id) ∧
      [mkService "A" ServiceStatus.healthy].find?
        (fun t => decide (lookupConn [("A", 2)] t.id
          = lookupConn [("A", 2)] s.id)) = some s) :=
  ⟨by decide, by decide,
   least_conn_select_first_min.1 [mkService "A" ServiceStatus.healthy]
     [("A", 2)] (by decide) (by decide)⟩

theorem eraseAssoc_map_snd (k : String) :
    ∀ l : List (String × Rule), (∀ p ∈ l, p.2.id = p.1) →
      (eraseAssoc k l).map Prod.snd
        = (l.map Prod.snd).filter (fun r => r.id ≠ k) := by
  intro l
  induction l with
  | nil => intro _; rfl
  | cons p rest ih =>
    intro hinv
    have hid : p.2.id = p.1 := hinv p (List.mem_cons_self _ _)
    have htl := ih (fun q hq => hinv q (List.mem_cons_of_mem _ hq))
    unfold eraseAssoc at htl ⊢
    simp only [ne_eq, decide_not] at htl
    by_cases hpk : p.1 = k
    · simp [List.filter_cons, hid, hpk, htl]
    · simp [List.filter_cons, hid, hpk, htl]

theorem lookupAssoc_none_keys {α : Type} (k : String)
    (l : List (String × α)) (h : lookupAssoc k l = none) :
    ∀ p ∈ l, p.1 ≠ k := by
  intro p hp
  unfold lookupAssoc at h
  rcases hf : l.find? (fun q => q.1 = k) with _ | q
  · have := List.find?_eq_none.mp hf p hp
    simpa using this
  · rw [hf] at h
    cases h

theorem map_snd_id_eq_keys :
    ∀ l : List (String × Rule), (∀ p ∈ l, p.2.id = p.1) →
      (l.map Prod.snd).map Rule.id = l.map Prod.fst := by
  intro l
  induction l with
  | nil => intro _; rfl
  | cons p rest ih =>
    intro hinv
    simp only [List.map_cons]
    rw [hinv p (List.mem_cons_self _ _),
      ih (fun q hq => hinv q (List.mem_cons_of_mem _ hq))]

theorem fwExec_spec :
    ∀ (ops : List FwOp) (st : FwState),
      (∀ op ∈ ops, fwOpOk op = true) →
      (fwOpAddIds ops).Nodup →
      (∀ p ∈ st.rules, p.2.id = p.1) →
      (st.rules.map Prod.fst).Nodup →
      (∀ i ∈ fwOpAddIds ops, ∀ p ∈ st.rules, p.1 ≠ i) →
      listRules (fwExec st ops) = specRules (listRules st) ops ∧
      (∀ p ∈ (fwExec st ops).rules, p.2.id = p.1) ∧
      ((fwExec st ops).rules.map Prod.fst).Nodup := by
  intro ops
  induction ops with
  | nil =>
    intro st _ _ hinv hnd _
    exact ⟨rfl, hinv, hnd⟩
  | cons op rest ih =>
    intro st hok hids hinv hnd hdisj
    cases op with
    | add r now ok =>
      have hokh : ok = true := by
        simpa [fwOpOk] using hok _ (List.mem_cons_self _ _)
      subst hokh
      have hfresh : ∀ p ∈ st.rules, p.1 ≠ (effRule r now).id :=
        hdisj _ (by simp [fwOpAddIds])
      have hany : st.rules.any (fun q => q.1 = (effRule r now).id)
          = false := by
        rw [List.any_eq_false]
        intro p hp
        simpa using hfresh p hp
      have hstep : fwStep st (FwOp.add r now true) =
          { st with rules :=
              st.rules ++ [((effRule r now).id, effRule r now)] } := by
        simp [fwStep, addRule, insertAssoc, hany]
      have hids' : (fwOpAddIds rest).Nodup := by
        simpa [fwOpAddIds] using hids.of_cons
      have hnotmem : (effRule r now).id ∉ fwOpAddIds rest := by
        have := hids
        simp only [fwOpAddIds, List.nodup_cons] at this
        exact this.1
      have hinv' : ∀ p ∈ st.rules ++ [((effRule r now).id, effRule r now)],
          p.2.id = p.1 := by
        intro p hp
        rcases List.mem_append.mp hp with h | h
        · exact hinv p h
        · rcases List.mem_singleton.mp h with rfl
          rfl
      have hnd' : ((st.rules ++
          [((effRule r now).id, effRule r now)]).map Prod.fst).Nodup := by
        rw [List.map_append]
        rw [List.nodup_append]
        refine ⟨hnd, List.nodup_singleton _, ?_⟩
        intro a ha hb
        rcases List.mem_map.mp ha with ⟨p, hp, rfl⟩
        rcases List.mem_singleton.mp hb with h
        exact hfresh p hp (by simpa using h)
      have hdisj' : ∀ i ∈ fwOpAddIds rest,
          ∀ p ∈ st.rules ++ [((effRule r now).id, effRule r now)],
            p.1 ≠ i := by
        intro i hi p hp
        rcases List.mem_append.mp hp with h | h
        · exact hdisj i (by simp [fwOpAddIds, hi]) p h
        · rcases List.mem_singleton.mp h with rfl
          intro h
          rw [← h] at hi
          exact hnotmem hi
      have hok' : ∀ op ∈ rest, fwOpOk op = true :=
        fun o ho => hok o (List.mem_cons_of_mem _ ho)
      have hmain := ih { st with rules :=
          st.rules ++ [((effRule r now).id, effRule r now)] }
        hok' hids' hinv' hnd' hdisj'
      have hlist : listRules { st with rules :=
          st.rules ++ [((effRule r now).id, effRule r now)] }
            = listRules st ++ [effRule r now] := by
        simp [listRules]
      refine ⟨?_, ?_, ?_⟩
      · show listRules (fwExec (fwStep st (FwOp.add r now true)) rest) = _
        rw [hstep]
        rw [hmain.1, hlist]
        rfl
      · show ∀ p ∈ (fwExec (fwStep st (FwOp.add r now true)) rest).rules, _
        rw [hstep]
        exact hmain.2.1
      · show ((fwExec (fwStep st (FwOp.add r now true)) rest).rules.map
          Prod.fst).Nodup
        rw [hstep]
        exact hmain.2.2
    | del rid ok =>
      have hokh : ok = true := by
        simpa [fwOpOk] using hok _ (List.mem_cons_self _ _)
      subst hokh
      have hids' : (fwOpAddIds rest).Nodup := by
        simpa [fwOpAddIds] using hids
      have hok' : ∀ op ∈ rest, fwOpOk op = true :=
        fun o ho => hok o (List.mem_cons_of_mem _ ho)
      have hdisj0 : ∀ i ∈ fwOpAddIds rest, ∀ p ∈ st.rules, p.1 ≠ i := by
        intro i hi
        exact hdisj i (by simpa [fwOpAddIds] using hi)
      cases hl : lookupAssoc rid st.rules with
      | none =>
        have hstep : fwStep st (FwOp.del rid true) = st := by
          simp [fwStep, deleteRule, hl]
        have hfilter : (listRules st).filter (fun r => r.id ≠ rid)
            = listRules st := by
          rw [List.filter_eq_self]
          intro a ha
          rcases List.mem_map.mp ha with ⟨p, hp, rfl⟩
          have := lookupAssoc_none_keys rid st.rules hl p hp
          simp [hinv p hp, this]
        have hmain := ih st hok' hids' hinv hnd hdisj0
        refine ⟨?_, ?_, ?_⟩
        · show listRules (fwExec (fwStep st (FwOp.del rid true)) rest) = _
          rw [hstep, hmain.1]
          show _ = specRules ((listRules st).filter
            (fun r => r.id ≠ rid)) rest
          rw [hfilter]
        · show ∀ p ∈ (fwExec (fwStep st (FwOp.del rid true)) rest).rules, _
          rw [hstep]
          exact hmain.2.1
        · show ((fwExec (fwStep st (FwOp.del rid true)) rest).rules.map
            Prod.fst).Nodup
          rw [hstep]
          exact hmain.2.2
      | some v =>
        have hstep : fwStep st (FwOp.del rid true) =
            { st with rules := eraseAssoc rid st.rules } := by
          simp [fwStep, deleteRule, hl]
        have hinv' : ∀ p ∈ eraseAssoc rid st.rules, p.2.id = p.1 :=
          fun p hp => hinv p (List.mem_of_mem_filter hp)
        have hnd' : ((eraseAssoc rid st.rules).map Prod.fst).Nodup :=
          ((List.filter_sublist st.rules).map Prod.fst).nodup hnd
        have hdisj' : ∀ i ∈ fwOpAddIds rest,
            ∀ p ∈ eraseAssoc rid st.rules, p.1 ≠ i :=
          fun i hi p hp => hdisj0 i hi p (List.mem_of_mem_filter hp)
        have hmain := ih { st with rules := eraseAssoc rid st.rules }
          hok' hids' hinv' hnd' hdisj'
        have hlist : listRules { st with rules := eraseAssoc rid st.rules }
            = (listRules st).filter (fun r => r.id ≠ rid) :=
          eraseAssoc_map_snd rid st.rules hinv
        refine ⟨?_, ?_, ?_⟩
        · show listRules (fwExec (fwStep st (FwOp.del rid true)) rest) = _
          rw [hstep, hmain.1, hlist]
          rfl
        · show ∀ p ∈ (fwExec (fwStep st (FwOp.del rid true)) rest).rules, _
          rw [hstep]
          exact hmain.2.1
        · show ((fwExec (fwStep st (FwOp.del rid true)) rest).rules.map
            Prod.fst).Nodup
          rw [hstep]
          exact hmain.2.2

/-- Claim C1 counterexample: two AddRule calls that reuse the explicit ID
`x` (every backend call succeeding): the first rule was added and never
deleted, yet `ListRules` no longer returns it — the second add silently
replaced it in the store — so the result is not the set of rules added
minus those deleted. -/
theorem listRules_dup_id_cex :
    dupIdOps.all fwOpOk = true ∧
    effRule (mkRule "x" "80") 1 ∈ specRules [] dupIdOps ∧
    effRule (mkRule "x" "80") 1 ∉ listRules (fwExec fwInit dupIdOps) := by
  refine ⟨rfl, by decide, by decide⟩

/-- Claim C1 (amended): for every sequence of AddRule/DeleteRule whose
backend calls all succeed and whose adds store under pairwise-distinct
effective IDs (explicit IDs distinct, and auto-generated IDs distinct
because the clock values differ), `ListRules` returns exactly the rules
added and not subsequently deleted, and their IDs are pairwise distinct;
when two adds share an effective ID the later add replaces the earlier
rule in the store. -/
theorem listRules_adds_minus_deletes (ops : List FwOp)
    (hok : ∀ op ∈ ops, fwOpOk op = true)
    (hids : (fwOpAddIds ops).Nodup) :
    listRules (fwExec fwInit ops) = specRules [] ops ∧
    ((listRules (fwExec fwInit ops)).map Rule.id).Nodup := by
  have h := fwExec_spec ops fwInit hok hids
    (by intro p hp; cases hp) (by simp [fwInit])
    (by intro i _ p hp; cases hp)
  refine ⟨h.1, ?_⟩
  rw [show listRules (fwExec fwInit ops)
    = (fwExec fwInit ops).rules.map Prod.snd from rfl]
  rw [map_snd_id_eq_keys _ h.2.1]
  exact h.2.2

theorem listRules_adds_minus_deletes_witness :
    (∀ op ∈ [FwOp.add (mkRule "" "80") 1 true,
       FwOp.add (mkRule "y" "443") 2 true, FwOp.del "y" true],
       fwOpOk op = true) ∧
    (fwOpAddIds [FwOp.add (mkRule "" "80") 1 true,
       FwOp.add (mkRule "y" "443") 2 true, FwOp.del "y" true]).Nodup ∧
    (listRules (fwExec fwInit [FwOp.add (mkRule "" "80") 1 true,
       FwOp.add (mkRule "y" "443") 2 true, FwOp.del "y" true])
      = specRules [] [FwOp.add (mkRule "" "80") 1 true,
          FwOp.add (mkRule "y" "443") 2 true, FwOp.del "y" true] ∧
     ((listRules (fwExec fwInit [FwOp.add (mkRule "" "80") 1 true,
        FwOp.add (mkRule "y" "443") 2 true, FwOp.del "y" true])).map
          Rule.id).Nodup) :=
  ⟨by decide, by decide,
   listRules_adds_minus_deletes
     [FwOp.add (mkRule "" "80") 1 true,
      FwOp.add (mkRule "y" "443") 2 true, FwOp.del "y" true]
     (by decide) (by decide)⟩

end HbfAgent
